import Mathlib

/-
Verification development for the secexec repository (src/secexec/secexec.py).

The Python code is shallowly embedded as executable Lean functions.  The
operating system (process spawning, PATH resolution, the external bashlex
parser) is abstracted as an oracle structure Sys; byte streams are modelled
as Lean strings (the code only concatenates them and decodes with
errors=replace, which never raises, so the identity decode is faithful);
exit codes are integers.  Every process interaction is additionally recorded
in an event trace (launch, wait, temporary-file creation) so that scheduling
and wiring facts stated by the specification are expressible.
-/

/-- An environment mapping, in insertion order, as Python dict iteration
order is observable in the variable-expansion loop. -/
abbrev Env := List (String × String)

/-- Characters stripped by Python str.strip with no argument
(the whitespace actually reachable in command strings). -/
def isSpaceChar (c : Char) : Bool :=
  c = ' ' || c = '\t' || c = '\n' || c = '\r' || c = '\x0b' || c = '\x0c'

/-- Model of Python str.strip(): drop leading and trailing whitespace. -/
def pyStrip (s : String) : String :=
  ⟨((s.data.dropWhile isSpaceChar).reverse.dropWhile isSpaceChar).reverse⟩

/-- Boolean prefix test on character lists. -/
def listPrefix : List Char → List Char → Bool
  | [], _ => true
  | _ :: _, [] => false
  | a :: as, b :: bs => a = b && listPrefix as bs

/-- Boolean contiguous-substring test on character lists. -/
def listInfix (pat : List Char) : List Char → Bool
  | [] => pat.isEmpty
  | c :: rest => listPrefix pat (c :: rest) || listInfix pat rest

/-- Model of the Python substring test (pat in s). -/
def pyIn (pat s : String) : Bool :=
  listInfix pat.data s.data

/-- Fuel-indexed worker for str.replace: leftmost, non-overlapping,
all occurrences.  The fuel is the length of the subject, consumed at
least one character per step, so it never runs out. -/
def replFuel (pat rep : List Char) : Nat → List Char → List Char
  | 0, s => s
  | _ + 1, [] => []
  | f + 1, c :: rest =>
    if !pat.isEmpty && listPrefix pat (c :: rest) then
      rep ++ replFuel pat rep f (List.drop (pat.length - 1) rest)
    else
      c :: replFuel pat rep f rest

/-- Model of Python s.replace(old, new). -/
def pyReplace (s old new : String) : String :=
  ⟨replFuel old.data new.data s.data.length s.data⟩

/-- Fuel-indexed worker for str.split(sep) with a non-empty separator:
no collapsing of empty fields. -/
def splitFuel (sep : List Char) : Nat → List Char → List (List Char)
  | 0, s => [s]
  | _ + 1, [] => [[]]
  | f + 1, c :: rest =>
    if !sep.isEmpty && listPrefix sep (c :: rest) then
      [] :: splitFuel sep f (List.drop (sep.length - 1) rest)
    else
      match splitFuel sep f rest with
      | [] => [[c]]
      | p :: ps => (c :: p) :: ps

/-- Model of Python s.split(sep). -/
def pySplit (s sep : String) : List String :=
  (splitFuel sep.data s.data.length s.data).map (fun l => ⟨l⟩)

/-- Model of Python "\n".join(xs). -/
def pyJoinLines (xs : List String) : String :=
  match xs with
  | [] => ""
  | x :: rest => rest.foldl (fun a b => a ++ "\n" ++ b) x

/-- Model of os.environ.copy() followed by .update(env): existing host
keys keep their position but take the caller value; lookups prefer the
caller mapping.  (Trailing caller entries that shadow a host key are
redundant for lookup and are kept for simplicity.) -/
def mergedEnv : Env → Env → Env
  | [], env => env
  | p :: host, env =>
    (match List.lookup p.1 env with
     | some v => (p.1, v)
     | none => p) :: mergedEnv host env

/-- A word part of a bashlex command node: the code keeps only parts of
kind word and ignores every other part kind. -/
inductive WordPart
  | word (w : String)
  | otherPart (kind : String)
  deriving Repr

/-- The bashlex command tree, as consumed by the dispatch in execute:
command, pipeline and list nodes are interpreted; a node of kind
operator and any unknown kind get fixed error results.  List nodes carry
their operator token; pipe separator nodes inside a pipeline appear as
other "pipe" and are skipped by the stage extraction, as in the code. -/
inductive Node
  | cmd (parts : List WordPart)
  | pipeline (parts : List Node)
  | list (left : Node) (op : String) (right : Node)
  | opNode (op : String)
  | other (kind : String)
  deriving Repr

/-- Result of one bashlex-node evaluation: the (rc, stdout, stderr)
triple returned by the private executor methods. -/
structure NodeRes where
  rc : Int
  out : String
  err : String
  deriving DecidableEq, Repr

/-- Events recorded by the embedding: process launch and wait (with the
argv and the environment handed to the OS) and creation of a named
temporary file, enough to express the wiring and scheduling claims. -/
inductive Ev
  | launch (argv : List String) (env : Env)
  | wait (argv : List String) (env : Env)
  | tmpfile
  deriving DecidableEq, Repr

/-- Outcome of one process-creation attempt by the OS: a completed
process (returncode, stdout bytes, stderr bytes), a FileNotFoundError
carrying the OS message, or another exception carrying str(e). -/
inductive SpawnOutcome
  | ok (rc : Int) (out err : String)
  | notFound (osMsg : String)
  | fail (msg : String)
  deriving DecidableEq, Repr

/-- The external world: the bashlex parser (raising ParsingError as
error), shutil.which, and process creation, which receives the argv, the
stdin byte content, the working directory and the child environment. -/
structure Sys where
  osEnviron : Env
  parse : String → Except String (List Node)
  which : String → Option String
  spawn : List String → String → Option String → Env → SpawnOutcome

/-- Spawn a process and wait for it (Popen or create_subprocess_exec
immediately followed by communicate, which is the only pattern in the
code): on success the trace records the launch and the wait; when the
spawn raises, no process exists and no event is recorded. -/
def runProc (sys : Sys) (argv : List String) (stdin : String)
    (cwd : Option String) (env : Env) : SpawnOutcome × List Ev :=
  match sys.spawn argv stdin cwd env with
  | .ok rc out err => (.ok rc out err, [.launch argv env, .wait argv env])
  | o => (o, [])

/-- Loop body of the variable expansion for one environment entry: the
three textual replacements of the dollar forms of the name, then the
whole-word equality check (lines 155-161). -/
def expandStep (w : String) (p : String × String) : String :=
  let w1 := pyReplace w ("$" ++ p.1) p.2
  let w2 := pyReplace w1 ("$\x7b" ++ p.1 ++ "\x7d") p.2
  let w3 := pyReplace w2 ("$" ++ p.1 ++ "$") (p.2 ++ "$")
  if w3 = "$" ++ p.1 then p.2 else w3

/-- Variable expansion of one word (lines 152-162 and its copies): for
each known variable, in mapping order, apply expandStep; unknown
references are never touched.  Runs only when the word contains a dollar
and the mapping is non-empty. -/
def expandWord (word : String) (env : Env) : String :=
  if pyIn "$" word && !env.isEmpty then env.foldl expandStep word
  else word

/-- Build the argv of a command node: expand each word part, skip every
non-word part (lines 147-163). -/
def argvOf (env : Env) (parts : List WordPart) : List String :=
  parts.filterMap (fun p =>
    match p with
    | .word w => some (expandWord w env)
    | .otherPart _ => none)

/-- Stage extraction of _execute_pipeline_node (lines 198-217): keep
command-kind nodes only, each reduced to its expanded argv. -/
def extractStages (env : Env) (ns : List Node) : List (List String) :=
  ns.filterMap (fun n =>
    match n with
    | .cmd parts => some (argvOf env parts)
    | _ => none)

/-- Synchronous _execute_command_node (lines 144-188): run the argv with
the merged environment; FileNotFoundError gives 127 and the message
Command not found, any other exception gives 1 and str(e). -/
def executeCommandNode (sys : Sys) (parts : List WordPart) (env : Env)
    (cwd : Option String) : NodeRes × List Ev :=
  match argvOf env parts with
  | [] => (⟨0, "", ""⟩, [])
  | a :: rest =>
    match runProc sys (a :: rest) "" cwd (mergedEnv sys.osEnviron env) with
    | (.ok rc out err, tr) => (⟨rc, out, err⟩, tr)
    | (.notFound _, tr) => (⟨127, "", "Command not found: " ++ a⟩, tr)
    | (.fail m, tr) => (⟨1, "", m⟩, tr)

/-- Middle and last stages of the synchronous pipeline (lines 252-282):
each stage reads the previous stdout through a temporary file and is
awaited before the next stage starts; middle return codes are ignored;
the final result is the last return code, the last stdout, and the
stderr of all stages in stage order; any exception aborts with code 1,
an empty stdout, and only str(e) as stderr. -/
def pipeRest (sys : Sys) (cwd : Option String) (E : Env) :
    String → String → List Ev → List (List String) → NodeRes × List Ev
  | _, _, tr, [] => (⟨0, "", ""⟩, tr)
  | stdin, accErr, tr, [lastC] =>
    match runProc sys lastC stdin cwd E with
    | (.ok rc out err, tr2) => (⟨rc, out, accErr ++ err⟩, tr ++ tr2)
    | (.notFound m, tr2) => (⟨1, "", m⟩, tr ++ tr2)
    | (.fail m, tr2) => (⟨1, "", m⟩, tr ++ tr2)
  | stdin, accErr, tr, c :: rest =>
    match runProc sys c stdin cwd E with
    | (.ok _ out err, tr2) => pipeRest sys cwd E out (accErr ++ err) (tr ++ tr2) rest
    | (.notFound m, tr2) => (⟨1, "", m⟩, tr ++ tr2)
    | (.fail m, tr2) => (⟨1, "", m⟩, tr ++ tr2)

/-- Synchronous _execute_pipeline_node body for extracted stages (lines
219-294): no stage means success; a single stage hits the empty
temp-file list (IndexError, caught as code 1); otherwise n-1 temporary
files are created up front and the stages run strictly one after the
other through them. -/
def executePipelineStages (sys : Sys) (cmds : List (List String)) (env : Env)
    (cwd : Option String) : NodeRes × List Ev :=
  match cmds with
  | [] => (⟨0, "", ""⟩, [])
  | [_] => (⟨1, "", "list index out of range"⟩, [])
  | c1 :: rest =>
    let E := mergedEnv sys.osEnviron env
    let tmps := List.replicate (cmds.length - 1) Ev.tmpfile
    match runProc sys c1 "" cwd E with
    | (.ok _ out1 err1, tr1) => pipeRest sys cwd E out1 err1 (tmps ++ tr1) rest
    | (.notFound m, tr1) => (⟨1, "", m⟩, tmps ++ tr1)
    | (.fail m, tr1) => (⟨1, "", m⟩, tmps ++ tr1)

/-- Python conditional of lines 314 and 331: join the two stdout byte
strings with an injected newline when both are non-empty, else plain
concatenation. -/
def pyJoinOut (a b : String) : String :=
  if a ≠ "" && b ≠ "" then a ++ "\n" ++ b else a ++ b

/-- The list-node body shared verbatim by _execute_list_node and
_aexecute_list_node (lines 296-334 and 634-672), parameterized by the
recursive node evaluator. -/
def listNodeEval (evalN : Node → NodeRes × List Ev) (l : Node) (op : String)
    (r : Node) : NodeRes × List Ev :=
  let (L, ltr) := evalN l
  if op = "&&" then
    if L.rc = 0 then
      let (R, rtr) := evalN r
      (⟨R.rc, pyJoinOut L.out R.out, L.err ++ R.err⟩, ltr ++ rtr)
    else (L, ltr)
  else if op = "||" then
    if L.rc ≠ 0 then
      let (R, rtr) := evalN r
      (⟨R.rc, R.out, L.err ++ R.err⟩, ltr ++ rtr)
    else (L, ltr)
  else if op = ";" then
    let (R, rtr) := evalN r
    (⟨R.rc, pyJoinOut L.out R.out, L.err ++ R.err⟩, ltr ++ rtr)
  else (L, ltr)

/-- Synchronous _execute_node dispatch (lines 127-142), with a fuel
argument for the recursion through single-element pipelines and list
children; sizeOf of the node always suffices, so the fuel-exhausted
branch is unreachable when called through runNodes. -/
def executeNode (sys : Sys) : Nat → Node → Env → Option String → NodeRes × List Ev
  | 0, _, _, _ => (⟨1, "", "recursion limit"⟩, [])
  | fuel + 1, n, env, cwd =>
    match n with
    | .cmd parts => executeCommandNode sys parts env cwd
    | .pipeline ns =>
      match ns with
      | [m] => executeNode sys fuel m env cwd
      | _ => executePipelineStages sys (extractStages env ns) env cwd
    | .list l op r => listNodeEval (fun m => executeNode sys fuel m env cwd) l op r
    | .opNode _ => (⟨1, "", "Operator node type not fully implemented"⟩, [])
    | .other k => (⟨1, "", "Unknown node type: " ++ k⟩, [])

/-- Synchronous _execute_list_node (lines 296-334) as a standalone
function: evaluate the left node first, then decide from the operator
token whether the right node runs, and combine the triples. -/
def executeListNode (sys : Sys) (fuel : Nat) (l : Node) (op : String) (r : Node)
    (env : Env) (cwd : Option String) : NodeRes × List Ev :=
  listNodeEval (fun m => executeNode sys fuel m env cwd) l op r

mutual

/-- Executable recursion budget of a node: strictly larger than the
depth of any recursive dispatch the evaluator performs on it. -/
def nodeFuel : Node → Nat
  | .cmd _ => 1
  | .pipeline ns => 1 + nodeListFuel ns
  | .list l _ r => 1 + nodeFuel l + nodeFuel r
  | .opNode _ => 1
  | .other _ => 1

/-- Summed recursion budget of a node list. -/
def nodeListFuel : List Node → Nat
  | [] => 0
  | n :: ns => nodeFuel n + nodeListFuel ns

end

/-- Loop of lines 113-118: evaluate the top-level nodes in order,
concatenating the byte streams and keeping the last return code. -/
def runNodes (sys : Sys) (nodes : List Node) (env : Env) (cwd : Option String) :
    NodeRes × List Ev :=
  nodes.foldl (fun acc n =>
    let (r, tr) := executeNode sys (nodeFuel n) n env cwd
    (⟨r.rc, acc.1.out ++ r.out, acc.1.err ++ r.err⟩, acc.2 ++ tr))
    (⟨0, "", ""⟩, [])

/-- First element of an argv, empty when there is none (Python would
raise an IndexError here; extracted pipeline stages always have at least
one word in practice). -/
def pyHead (c : List String) : String :=
  match c with
  | [] => ""
  | a :: _ => a

/-- Asynchronous _aexecute_command_node (lines 461-513): resolve argv[0]
through shutil.which first; an unresolved name is 127 with the
Command not found message before anything is spawned; otherwise the
resolved path replaces argv[0]. -/
def aexecuteCommandNode (sys : Sys) (parts : List WordPart) (env : Env)
    (cwd : Option String) : NodeRes × List Ev :=
  match argvOf env parts with
  | [] => (⟨0, "", ""⟩, [])
  | a :: rest =>
    match sys.which a with
    | none => (⟨127, "", "Command not found: " ++ a⟩, [])
    | some p =>
      match runProc sys (p :: rest) "" cwd (mergedEnv sys.osEnviron env) with
      | (.ok rc out err, tr) => (⟨rc, out, err⟩, tr)
      | (.notFound _, tr) => (⟨127, "", "Command not found: " ++ a⟩, tr)
      | (.fail m, tr) => (⟨1, "", m⟩, tr)

/-- Middle and last stages of the asynchronous pipeline (lines 580-620):
like the synchronous version but each stage is which-resolved first; an
unresolved stage returns 127 with the stderr gathered so far plus the
Command not found message. -/
def apipeRest (sys : Sys) (cwd : Option String) (E : Env) :
    String → String → List Ev → List (List String) → NodeRes × List Ev
  | _, _, tr, [] => (⟨0, "", ""⟩, tr)
  | stdin, accErr, tr, [lastC] =>
    match sys.which (pyHead lastC) with
    | none => (⟨127, "", accErr ++ "Command not found: " ++ pyHead lastC⟩, tr)
    | some p =>
      match runProc sys (p :: lastC.tail) stdin cwd E with
      | (.ok rc out err, tr2) => (⟨rc, out, accErr ++ err⟩, tr ++ tr2)
      | (.notFound m, tr2) => (⟨1, "", m⟩, tr ++ tr2)
      | (.fail m, tr2) => (⟨1, "", m⟩, tr ++ tr2)
  | stdin, accErr, tr, c :: rest =>
    match sys.which (pyHead c) with
    | none => (⟨127, "", accErr ++ "Command not found: " ++ pyHead c⟩, tr)
    | some p =>
      match runProc sys (p :: c.tail) stdin cwd E with
      | (.ok _ out err, tr2) => apipeRest sys cwd E out (accErr ++ err) (tr ++ tr2) rest
      | (.notFound m, tr2) => (⟨1, "", m⟩, tr ++ tr2)
      | (.fail m, tr2) => (⟨1, "", m⟩, tr ++ tr2)

/-- Asynchronous _aexecute_pipeline_node body for extracted stages
(lines 544-632): temporary files are created first; each stage is
which-resolved and awaited before the next starts; a single extracted
stage that resolves still hits the empty temp-file list (IndexError,
code 1), and an unresolved one returns 127 beforehand. -/
def aexecutePipelineStages (sys : Sys) (cmds : List (List String)) (env : Env)
    (cwd : Option String) : NodeRes × List Ev :=
  match cmds with
  | [] => (⟨0, "", ""⟩, [])
  | [c] =>
    match sys.which (pyHead c) with
    | none => (⟨127, "", "Command not found: " ++ pyHead c⟩, [])
    | some _ => (⟨1, "", "list index out of range"⟩, [])
  | c1 :: rest =>
    let E := mergedEnv sys.osEnviron env
    let tmps := List.replicate (cmds.length - 1) Ev.tmpfile
    match sys.which (pyHead c1) with
    | none => (⟨127, "", "Command not found: " ++ pyHead c1⟩, tmps)
    | some p =>
      match runProc sys (p :: c1.tail) "" cwd E with
      | (.ok _ out1 err1, tr1) => apipeRest sys cwd E out1 err1 (tmps ++ tr1) rest
      | (.notFound m, tr1) => (⟨1, "", m⟩, tmps ++ tr1)
      | (.fail m, tr1) => (⟨1, "", m⟩, tmps ++ tr1)

/-- Asynchronous _aexecute_node dispatch (lines 444-459). -/
def aexecuteNode (sys : Sys) : Nat → Node → Env → Option String → NodeRes × List Ev
  | 0, _, _, _ => (⟨1, "", "recursion limit"⟩, [])
  | fuel + 1, n, env, cwd =>
    match n with
    | .cmd parts => aexecuteCommandNode sys parts env cwd
    | .pipeline ns =>
      match ns with
      | [m] => aexecuteNode sys fuel m env cwd
      | _ => aexecutePipelineStages sys (extractStages env ns) env cwd
    | .list l op r => listNodeEval (fun m => aexecuteNode sys fuel m env cwd) l op r
    | .opNode _ => (⟨1, "", "Operator node type not fully implemented"⟩, [])
    | .other k => (⟨1, "", "Unknown node type: " ++ k⟩, [])

/-- Asynchronous _aexecute_list_node (lines 634-672) standalone. -/
def aexecuteListNode (sys : Sys) (fuel : Nat) (l : Node) (op : String) (r : Node)
    (env : Env) (cwd : Option String) : NodeRes × List Ev :=
  listNodeEval (fun m => aexecuteNode sys fuel m env cwd) l op r

/-- Loop of lines 430-435 for the asynchronous driver. -/
def aRunNodes (sys : Sys) (nodes : List Node) (env : Env) (cwd : Option String) :
    NodeRes × List Ev :=
  nodes.foldl (fun acc n =>
    let (r, tr) := aexecuteNode sys (nodeFuel n) n env cwd
    (⟨r.rc, acc.1.out ++ r.out, acc.1.err ++ r.err⟩, acc.2 ++ tr))
    (⟨0, "", ""⟩, [])

/-- One segment loop of the ampersand-ampersand branch (lines 50-70):
skip blank segments, run each in turn, gather all stderr, gather the
stripped stdout of succeeding segments, and stop at the first failure,
whose return code is reported (0 when every segment succeeds). -/
def andParts (ex : String → (String × String × Int) × List Ev) :
    List String → List String × String × Int × List Ev
  | [] => ([], "", 0, [])
  | p :: ps =>
    let q := pyStrip p
    if q = "" then andParts ex ps
    else
      let ((so, se, rc), tr) := ex q
      if rc = 0 then
        let (outs, errs, lrc, tr2) := andParts ex ps
        (pyStrip so :: outs, se ++ errs, lrc, tr ++ tr2)
      else ([], se, rc, tr)

/-- Loop of the pipe-pipe branch (lines 72-85): run the segments until
one succeeds and return its full triple; if none does (or every segment
is blank), re-run the last raw segment and return its result.  Events of
the discarded attempts remain in the trace. -/
def orParts (ex : String → (String × String × Int) × List Ev)
    (last : String) : List String → (String × String × Int) × List Ev
  | [] => ex (pyStrip last)
  | p :: ps =>
    let q := pyStrip p
    if q = "" then orParts ex last ps
    else
      let (r, tr) := ex q
      if r.2.2 = 0 then (r, tr)
      else
        let (r2, tr2) := orParts ex last ps
        (r2, tr ++ tr2)

/-- Loop of the semicolon branch (lines 87-104): run every non-blank
segment, gather all stderr, gather the stripped stdout of segments whose
stdout is non-blank, and keep the return code of the last segment run
(none gives 0 at the top). -/
def semiParts (ex : String → (String × String × Int) × List Ev) :
    List String → List String × String × Option Int × List Ev
  | [] => ([], "", none, [])
  | p :: ps =>
    let q := pyStrip p
    if q = "" then semiParts ex ps
    else
      let ((so, se, rc), tr) := ex q
      let (outs, errs, rcO, tr2) := semiParts ex ps
      ((if pyStrip so ≠ "" then pyStrip so :: outs else outs),
        se ++ errs, some (rcO.getD rc), tr ++ tr2)

/-- SecExec.execute (lines 23-125) with explicit fuel for its recursion
on operator-split segments.  A split segment no longer contains the
separator it was split on, so the recursion depth is at most 4 and the
zero-fuel branch is unreachable through the execute wrapper below. -/
def executeF (sys : Sys) : Nat → String → Option String → Env →
    (String × String × Int) × List Ev
  | 0, _, _, _ => (("", "", 0), [])
  | fuel + 1, cmdStr, cwd, env =>
    if pyStrip cmdStr = "" then (("", "", 0), [])
    else if pyIn "(" cmdStr && pyIn ")" cmdStr then
      match runProc sys ["bash", "-c", cmdStr] "" cwd (mergedEnv sys.osEnviron env) with
      | (.ok rc out err, tr) => ((out, err, rc), tr)
      | (.notFound m, tr) => (("", "Error executing command: " ++ m, 1), tr)
      | (.fail m, tr) => (("", "Error executing command: " ++ m, 1), tr)
    else if pyIn "&&" cmdStr then
      let (outs, errs, lrc, tr) :=
        andParts (fun p => executeF sys fuel p cwd env) (pySplit cmdStr "&&")
      ((pyJoinLines outs, errs, lrc), tr)
    else if pyIn "||" cmdStr then
      let parts := pySplit cmdStr "||"
      orParts (fun p => executeF sys fuel p cwd env) (parts.getLastD "") parts
    else if pyIn ";" cmdStr then
      let (outs, errs, rcO, tr) :=
        semiParts (fun p => executeF sys fuel p cwd env) (pySplit cmdStr ";")
      ((pyJoinLines outs, errs, rcO.getD 0), tr)
    else
      match sys.parse cmdStr with
      | .error m => (("", "Failed to parse command: " ++ m, 1), [])
      | .ok nodes =>
        let (r, tr) := runNodes sys nodes env cwd
        ((r.out, r.err, r.rc), tr)

/-- SecExec.aexecute (lines 336-442) with explicit fuel, mirroring
executeF except that node evaluation goes through the asynchronous
dispatch. -/
def aexecuteF (sys : Sys) : Nat → String → Option String → Env →
    (String × String × Int) × List Ev
  | 0, _, _, _ => (("", "", 0), [])
  | fuel + 1, cmdStr, cwd, env =>
    if pyStrip cmdStr = "" then (("", "", 0), [])
    else if pyIn "(" cmdStr && pyIn ")" cmdStr then
      match runProc sys ["bash", "-c", cmdStr] "" cwd (mergedEnv sys.osEnviron env) with
      | (.ok rc out err, tr) => ((out, err, rc), tr)
      | (.notFound m, tr) => (("", "Error executing command: " ++ m, 1), tr)
      | (.fail m, tr) => (("", "Error executing command: " ++ m, 1), tr)
    else if pyIn "&&" cmdStr then
      let (outs, errs, lrc, tr) :=
        andParts (fun p => aexecuteF sys fuel p cwd env) (pySplit cmdStr "&&")
      ((pyJoinLines outs, errs, lrc), tr)
    else if pyIn "||" cmdStr then
      let parts := pySplit cmdStr "||"
      orParts (fun p => aexecuteF sys fuel p cwd env) (parts.getLastD "") parts
    else if pyIn ";" cmdStr then
      let (outs, errs, rcO, tr) :=
        semiParts (fun p => aexecuteF sys fuel p cwd env) (pySplit cmdStr ";")
      ((pyJoinLines outs, errs, rcO.getD 0), tr)
    else
      match sys.parse cmdStr with
      | .error m => (("", "Failed to parse command: " ++ m, 1), [])
      | .ok nodes =>
        let (r, tr) := aRunNodes sys nodes env cwd
        ((r.out, r.err, r.rc), tr)

/-- SecExec.execute: the blocking entry point.  Fuel 4 covers the
maximal operator-split recursion depth (ampersand-ampersand segment,
then pipe-pipe segment, then semicolon segment, then a parse). -/
def execute (sys : Sys) (cmdStr : String) (cwd : Option String) (env : Env) :
    (String × String × Int) × List Ev :=
  executeF sys 4 cmdStr cwd env

/-- SecExec.aexecute: the suspend-on-I-O entry point. -/
def aexecute (sys : Sys) (cmdStr : String) (cwd : Option String) (env : Env) :
    (String × String × Int) × List Ev :=
  aexecuteF sys 4 cmdStr cwd env

/-- A small concrete operating system used to evaluate the embedding at
the inputs of the claims: a bashlex oracle for the command strings that
appear in them, a PATH with the usual utilities, and process behaviour
for echo, false, wc and a missing executable. -/
def sysD : Sys where
  osEnviron := [("PATH", "/bin")]
  which := fun s =>
    if s = "echo" then some "/bin/echo"
    else if s = "cat" then some "/bin/cat"
    else if s = "wc" then some "/bin/wc"
    else if s = "false" then some "/bin/false"
    else none
  parse := fun s =>
    if s = "echo 1" then .ok [.cmd [.word "echo", .word "1"]]
    else if s = "false" then .ok [.cmd [.word "false"]]
    else if s = "echo 3" then .ok [.cmd [.word "echo", .word "3"]]
    else if s = "echo hi" then .ok [.cmd [.word "echo", .word "hi"]]
    else if s = "doesnotexist123" then .ok [.cmd [.word "doesnotexist123"]]
    else if s = "doesnotexist123 | cat" then
      .ok [.pipeline [.cmd [.word "doesnotexist123"], .other "pipe",
                      .cmd [.word "cat"]]]
    else if s = "echo hi | wc -l" then
      .ok [.pipeline [.cmd [.word "echo", .word "hi"], .other "pipe",
                      .cmd [.word "wc", .word "-l"]]]
    else if s = "echo \"a&&b\"" then .ok [.cmd [.word "echo", .word "a&&b"]]
    else if s = "echo \"a" then .error "unexpected EOF"
    else .error "command not modelled"
  spawn := fun argv stdin _ _ =>
    match argv, stdin with
    | ["bash", "-c", "(echo hi)"], _ => .ok 0 "hi\n" ""
    | ["echo", x], _ => .ok 0 (x ++ "\n") ""
    | ["false"], _ => .ok 1 "" ""
    | ["wc", "-l"], "hi\n" => .ok 0 "1\n" ""
    | ["doesnotexist123"], _ =>
      .notFound "No such file or directory: doesnotexist123"
    | _, _ => .notFound "spawn not modelled"


/-- An event respects an environment when every launch and wait it
records handed exactly that environment to the OS. -/
def evUses (E : Env) : Ev → Prop
  | .launch _ e => e = E
  | .wait _ e => e = E
  | .tmpfile => True

/-- Dispatch agreement: a list node evaluated through _execute_node is
exactly _execute_list_node on its children. -/
theorem executeNode_list_eq (sys : Sys) (fuel : Nat) (l : Node) (op : String)
    (r : Node) (env : Env) (cwd : Option String) :
    executeNode sys (fuel + 1) (.list l op r) env cwd
      = executeListNode sys fuel l op r env cwd := rfl

/-- C1: the claim requires a command containing a parenthesized subshell
to fail with an explicit unsupported-construct error and never reach a
real shell.  The code instead hands the raw string verbatim to a bash
process for interpretation and returns its result with no error: on the
input (echo hi), execute launches argv [bash, -c, (echo hi)] and
reports bash's own output and status, and its stderr never mentions an
unsupported construct. -/
theorem c1_subshell_delegated_to_bash :
    execute sysD "(echo hi)" none [] =
      (("hi\n", "", 0),
       [.launch ["bash", "-c", "(echo hi)"] [("PATH", "/bin")],
        .wait ["bash", "-c", "(echo hi)"] [("PATH", "/bin")]])
    ∧ pyIn "unsupported construct" (execute sysD "(echo hi)" none []).1.2.1 = false := by
  constructor
  · decide
  · decide

/-- C2: the claim requires control flow to be decided only by the parsed
tree, so operator characters inside quoted arguments are never control
operators.  The code splits the raw string on the ampersand pair before
parsing: on echo "a&&b" it executes the unparseable fragment echo "a and
fails with a parse error, launching nothing, even though the parser maps
the full string to a single plain command whose evaluation would run
echo with the literal argument a&&b. -/
theorem c2_raw_scan_splits_quoted_operator :
    execute sysD "echo \"a&&b\"" none []
        = (("", "Failed to parse command: unexpected EOF", 1), [])
    ∧ sysD.parse "echo \"a&&b\"" = .ok [.cmd [.word "echo", .word "a&&b"]]
    ∧ executeNode sysD 1 (.cmd [.word "echo", .word "a&&b"]) [] none
        = (⟨0, "a&&b\n", ""⟩,
           [.launch ["echo", "a&&b"] [("PATH", "/bin")],
            .wait ["echo", "a&&b"] [("PATH", "/bin")]]) := by
  refine ⟨by decide, rfl, by decide⟩

/-- C4: the claim reserves 127 for unresolved executables, and requires
a multi-stage pipeline with an unresolvable stage to report 127.  A
single missing command does report 127 with the Command not found
message, but in a pipeline the FileNotFoundError is swallowed by the
generic exception handler and reported as exit code 1 with the raw OS
message instead. -/
theorem c4_pipeline_not_found_reports_1 :
    execute sysD "doesnotexist123 | cat" none []
        = (("", "No such file or directory: doesnotexist123", 1), [.tmpfile])
    ∧ execute sysD "doesnotexist123" none []
        = (("", "Command not found: doesnotexist123", 127), []) := by
  constructor
  · decide
  · decide

/-- C9: the claim requires execute and aexecute to return identical
triples everywhere.  On a pipeline whose first stage cannot be resolved,
the blocking variant reports exit code 1 with the raw OS message, while
the non-blocking variant, which resolves each stage through which before
spawning, reports 127 with the Command not found message. -/
theorem c9_modes_disagree_on_pipeline_resolution :
    execute sysD "doesnotexist123 | cat" none []
        = (("", "No such file or directory: doesnotexist123", 1), [.tmpfile])
    ∧ aexecute sysD "doesnotexist123 | cat" none []
        = (("", "Command not found: doesnotexist123", 127), [.tmpfile]) := by
  constructor
  · decide
  · decide

/-- C7 counterexample: the claim states that execute of
echo 1 ; false ; echo 3 reports the nonzero status of false.  In the
code the semicolon loop overwrites the last return code at every
segment, so the reported exit code is the status of echo 3, namely 0,
while false exited with 1. -/
theorem c7_counterexample :
    (execute sysD "echo 1 ; false ; echo 3" none []).1.2.2 = 0
    ∧ sysD.spawn ["false"] "" none [("PATH", "/bin")] = .ok 1 "" ""
    ∧ (0 : Int) ≠ 1 := by
  refine ⟨by decide, by decide, by decide⟩

/-- C7 amended: execute of echo 1 ; false ; echo 3 runs all three
segments (each is launched and awaited), its stdout is the newline-join
of the stripped segment stdouts and so contains 1 and 3, and its exit
code is the status of the final segment, 0. -/
theorem c7_amended_runs_all_reports_last :
    execute sysD "echo 1 ; false ; echo 3" none [] =
      (("1\n3", "", 0),
       [.launch ["echo", "1"] [("PATH", "/bin")],
        .wait ["echo", "1"] [("PATH", "/bin")],
        .launch ["false"] [("PATH", "/bin")],
        .wait ["false"] [("PATH", "/bin")],
        .launch ["echo", "3"] [("PATH", "/bin")],
        .wait ["echo", "3"] [("PATH", "/bin")]])
    ∧ pyIn "1" "1\n3" = true ∧ pyIn "3" "1\n3" = true := by
  refine ⟨by decide, by decide, by decide⟩

/-- C8 counterexample: the claim says a reference to an unknown variable
resolves to the empty string.  With environment mapping X to 7, the word
consisting of a reference to the unknown Y is returned verbatim, not
empty. -/
theorem c8_counterexample :
    expandWord "$Y" [("X", "7")] = "$Y" ∧ "$Y" ≠ "" := by
  refine ⟨by decide, by decide⟩

/-- The trace of one spawn-and-wait is either empty (the spawn raised)
or exactly a launch immediately followed by its wait. -/
theorem runProc_trace_shape (sys : Sys) (argv : List String) (stdin : String)
    (cwd : Option String) (E : Env) :
    (runProc sys argv stdin cwd E).2 = []
    ∨ (runProc sys argv stdin cwd E).2 = [.launch argv E, .wait argv E] := by
  unfold runProc
  cases sys.spawn argv stdin cwd E <;> simp

/-- Prefix test is reflexive. -/
theorem listPrefix_refl (l : List Char) : listPrefix l l = true := by
  induction l with
  | nil => rfl
  | cons a as ih => simp [listPrefix, ih]

/-- A prefix of an extended pattern is a prefix of the pattern. -/
theorem listPrefix_append_left (p q s : List Char)
    (h : listPrefix (p ++ q) s = true) : listPrefix p s = true := by
  induction p generalizing s with
  | nil => rfl
  | cons a as ih =>
    cases s with
    | nil => simp [listPrefix] at h
    | cons b bs =>
      simp [listPrefix] at h ⊢
      exact ⟨h.1, ih bs h.2⟩

/-- The substring test is reflexive on non-trivial patterns and, for the
empty pattern, trivially true. -/
theorem listInfix_refl (l : List Char) : listInfix l l = true := by
  cases l with
  | nil => rfl
  | cons a as => simp [listInfix, listPrefix_refl]

/-- Extending a pattern that does not occur keeps it absent. -/
theorem listInfix_append_false (p q s : List Char)
    (h : listInfix p s = false) : listInfix (p ++ q) s = false := by
  induction s with
  | nil =>
    simp [listInfix] at h ⊢
    intro hc
    exact absurd hc h
  | cons c rest ih =>
    simp [listInfix] at h ⊢
    refine ⟨?_, ih h.2⟩
    cases hpq : listPrefix (p ++ q) (c :: rest) with
    | false => rfl
    | true => exact absurd (listPrefix_append_left p q (c :: rest) hpq) (by simp [h.1])

/-- Replacement of an absent pattern is the identity. -/
theorem replFuel_absent_pat (pat rep : List Char) (f : Nat) :
    ∀ s, listInfix pat s = false → replFuel pat rep f s = s := by
  induction f with
  | zero => intro s _; rfl
  | succ f ih =>
    intro s h
    cases s with
    | nil => rfl
    | cons c rest =>
      simp [listInfix] at h
      simp [replFuel, h.1, ih rest h.2]

/-- Python replace with a pattern that is not a substring returns the
subject unchanged. -/
theorem pyReplace_of_not_in (s old new : String) (h : pyIn old s = false) :
    pyReplace s old new = s := by
  unfold pyReplace
  rw [replFuel_absent_pat old.data new.data s.data.length s.data h]

/-- Absence of a substring is preserved by extending it on the right. -/
theorem pyIn_append_false (p q s : String) (h : pyIn p s = false) :
    pyIn (p ++ q) s = false := by
  unfold pyIn at h ⊢
  rw [String.data_append]
  exact listInfix_append_false p.data q.data s.data h

/-- Every string is a substring of itself. -/
theorem pyIn_self (s : String) : pyIn s s = true :=
  listInfix_refl s.data

/-- One expansion step leaves a word alone when neither dollar pattern
of the entry occurs in it. -/
theorem expandStep_id (w : String) (p : String × String)
    (h1 : pyIn ("$" ++ p.1) w = false)
    (h2 : pyIn ("$\x7b" ++ p.1 ++ "\x7d") w = false) :
    expandStep w p = w := by
  unfold expandStep
  dsimp only
  rw [pyReplace_of_not_in w _ _ h1, pyReplace_of_not_in w _ _ h2]
  have h3 : pyIn ("$" ++ p.1 ++ "$") w = false := by
    have := pyIn_append_false ("$" ++ p.1) "$" w h1
    simpa [String.append_assoc] using this
  rw [pyReplace_of_not_in w _ _ h3]
  have hne : w ≠ "$" ++ p.1 := by
    intro he
    rw [he] at h1
    rw [pyIn_self] at h1
    exact absurd h1 (by simp)
  simp [hne]

/-- C8 amended: a variable reference whose dollar patterns are built
from names absent from the environment mapping is left verbatim by the
resolver, not replaced by the empty string; in particular a reference to
an unknown name survives unchanged. -/
theorem c8_amended_unknown_left_verbatim (w : String) (env : Env)
    (h : ∀ p ∈ env, pyIn ("$" ++ p.1) w = false
          ∧ pyIn ("$\x7b" ++ p.1 ++ "\x7d") w = false) :
    expandWord w env = w := by
  unfold expandWord
  have hfold : ∀ e : Env,
      (∀ p ∈ e, pyIn ("$" ++ p.1) w = false
        ∧ pyIn ("$\x7b" ++ p.1 ++ "\x7d") w = false) →
      e.foldl expandStep w = w := by
    intro e
    induction e with
    | nil => intro _; rfl
    | cons p ps ih =>
      intro he
      have hp := he p (by simp)
      rw [List.foldl_cons, expandStep_id w p hp.1 hp.2]
      exact ih (fun q hq => he q (by simp [hq]))
  split
  · exact hfold env h
  · rfl

/-- C8 amended witness: with environment mapping X to 7, the token
referring to the unknown Y resolves to itself. -/
theorem c8_amended_witness : expandWord "$Y" [("X", "7")] = "$Y" :=
  c8_amended_unknown_left_verbatim "$Y" [("X", "7")] (by decide)

/-- Left-biased choice on options, first component present. -/
theorem option_some_or {α : Type} (a : α) (o : Option α) :
    (Option.some a).or o = some a := rfl

/-- Left-biased choice on options, first component absent. -/
theorem option_none_or {α : Type} (o : Option α) : Option.or none o = o := rfl

/-- Lookup law of the merged environment: the caller mapping wins on
shared keys and the host environment answers the rest. -/
theorem lookup_mergedEnv (host env : Env) (k : String) :
    List.lookup k (mergedEnv host env)
      = (List.lookup k env).or (List.lookup k host) := by
  induction host with
  | nil => cases h : List.lookup k env <;> simp [mergedEnv, Option.or, h]
  | cons p host ih =>
    by_cases hk : k = p.1
    · subst hk
      cases hv : List.lookup p.1 env with
      | some v => simp [mergedEnv, hv, List.lookup, option_some_or]
      | none => simp [mergedEnv, hv, List.lookup, option_none_or]
    · have hbeq : (k == p.1) = false := by simp [hk]
      cases hv : List.lookup p.1 env with
      | some v => simp [mergedEnv, hv, List.lookup, hbeq, ih]
      | none => simp [mergedEnv, hv, List.lookup, hbeq, ih]

/-- Every event recorded by one spawn-and-wait carries the environment
that was handed to the OS. -/
theorem runProc_env (sys : Sys) (a : List String) (i : String)
    (cwd : Option String) (E : Env) :
    ∀ e ∈ (runProc sys a i cwd E).2, evUses E e := by
  intro e he
  rcases runProc_trace_shape sys a i cwd E with h | h <;> rw [h] at he
  · simp at he
  · simp at he
    rcases he with rfl | rfl <;> simp [evUses]

/-- The trace of a list-node evaluation is the left trace, possibly
followed by the right trace. -/
theorem listNodeEval_trace (evalN : Node → NodeRes × List Ev) (l : Node)
    (op : String) (r : Node) :
    (listNodeEval evalN l op r).2 = (evalN l).2
    ∨ (listNodeEval evalN l op r).2 = (evalN l).2 ++ (evalN r).2 := by
  unfold listNodeEval
  rcases hL : evalN l with ⟨L, ltr⟩
  rcases hR : evalN r with ⟨R, rtr⟩
  dsimp only
  by_cases h1 : op = "&&"
  · rw [if_pos h1]
    split
    · exact Or.inr rfl
    · exact Or.inl rfl
  · rw [if_neg h1]
    by_cases h2 : op = "||"
    · rw [if_pos h2]
      split
      · exact Or.inr rfl
      · exact Or.inl rfl
    · rw [if_neg h2]
      by_cases h3 : op = ";"
      · rw [if_pos h3]
        exact Or.inr rfl
      · rw [if_neg h3]
        exact Or.inl rfl

/-- Any event property established for both children holds for the
events of a list-node evaluation. -/
theorem listNodeEval_env (P : Ev → Prop) (evalN : Node → NodeRes × List Ev)
    (hev : ∀ m e, e ∈ (evalN m).2 → P e) (l : Node) (op : String) (r : Node) :
    ∀ e ∈ (listNodeEval evalN l op r).2, P e := by
  intro e he
  rcases listNodeEval_trace evalN l op r with h | h <;> rw [h] at he
  · exact hev l e he
  · rcases List.mem_append.mp he with h' | h'
    · exact hev l e h'
    · exact hev r e h'

/-- Events of the synchronous pipeline tail all carry the pipeline
environment, given that the accumulated trace already does. -/
theorem pipeRest_env (sys : Sys) (cwd : Option String) (E : Env) :
    ∀ (rest : List (List String)) (stdin accErr : String) (tr : List Ev),
    (∀ e ∈ tr, evUses E e) →
    ∀ e ∈ (pipeRest sys cwd E stdin accErr tr rest).2, evUses E e := by
  intro rest
  induction rest with
  | nil =>
    intro stdin accErr tr htr e he
    simp [pipeRest] at he
    exact htr e he
  | cons c rest ih =>
    intro stdin accErr tr htr e he
    cases rest with
    | nil =>
      rcases h : runProc sys c stdin cwd E with ⟨o, tr2⟩
      have h2 : ∀ e ∈ tr2, evUses E e := fun e he' =>
        runProc_env sys c stdin cwd E e (by rw [h]; exact he')
      cases o <;> simp only [pipeRest, h] at he <;>
        (rcases List.mem_append.mp he with h' | h'
         · exact htr e h'
         · exact h2 e h')
    | cons c2 rest2 =>
      rcases h : runProc sys c stdin cwd E with ⟨o, tr2⟩
      have h2 : ∀ e ∈ tr2, evUses E e := fun e he' =>
        runProc_env sys c stdin cwd E e (by rw [h]; exact he')
      cases o with
      | ok rc out err =>
        simp only [pipeRest, h] at he
        refine ih out (accErr ++ err) (tr ++ tr2) ?_ e he
        intro e' he'
        rcases List.mem_append.mp he' with h' | h'
        · exact htr e' h'
        · exact h2 e' h'
      | notFound m =>
        simp only [pipeRest, h] at he
        rcases List.mem_append.mp he with h' | h'
        · exact htr e h'
        · exact h2 e h'
      | fail m =>
        simp only [pipeRest, h] at he
        rcases List.mem_append.mp he with h' | h'
        · exact htr e h'
        · exact h2 e h'

/-- Every event of the synchronous pipeline carries the merged
environment of the call. -/
theorem pipeStages_env (sys : Sys) (cmds : List (List String)) (env : Env)
    (cwd : Option String) :
    ∀ e ∈ (executePipelineStages sys cmds env cwd).2,
      evUses (mergedEnv sys.osEnviron env) e := by
  intro e he
  cases cmds with
  | nil => simp [executePipelineStages] at he
  | cons c1 rest =>
    cases rest with
    | nil => simp [executePipelineStages] at he
    | cons c2 rest2 =>
      rcases h : runProc sys c1 "" cwd (mergedEnv sys.osEnviron env) with ⟨o, tr1⟩
      have h1 : ∀ e ∈ tr1, evUses (mergedEnv sys.osEnviron env) e := fun e he' =>
        runProc_env sys c1 "" cwd (mergedEnv sys.osEnviron env) e (by rw [h]; exact he')
      have htmp : ∀ n, ∀ e ∈ List.replicate n Ev.tmpfile,
          evUses (mergedEnv sys.osEnviron env) e := by
        intro n e he'
        rw [List.eq_of_mem_replicate he']
        simp [evUses]
      cases o with
      | ok rc out err =>
        simp only [executePipelineStages, h] at he
        refine pipeRest_env sys cwd (mergedEnv sys.osEnviron env) (c2 :: rest2)
          out err _ ?_ e he
        intro e' he'
        rcases List.mem_append.mp he' with h' | h'
        · exact htmp _ e' h'
        · exact h1 e' h'
      | notFound m =>
        simp only [executePipelineStages, h] at he
        rcases List.mem_append.mp he with h' | h'
        · exact htmp _ e h'
        · exact h1 e h'
      | fail m =>
        simp only [executePipelineStages, h] at he
        rcases List.mem_append.mp he with h' | h'
        · exact htmp _ e h'
        · exact h1 e h'

/-- Every event of a synchronous command node carries the merged
environment of the call. -/
theorem cmdNode_env (sys : Sys) (parts : List WordPart) (env : Env)
    (cwd : Option String) :
    ∀ e ∈ (executeCommandNode sys parts env cwd).2,
      evUses (mergedEnv sys.osEnviron env) e := by
  intro e he
  unfold executeCommandNode at he
  cases hA : argvOf env parts with
  | nil => rw [hA] at he; simp at he
  | cons a rest =>
    rw [hA] at he
    rcases h : runProc sys (a :: rest) "" cwd (mergedEnv sys.osEnviron env) with ⟨o, tr⟩
    have h1 : ∀ e ∈ tr, evUses (mergedEnv sys.osEnviron env) e := fun e he' =>
      runProc_env sys (a :: rest) "" cwd (mergedEnv sys.osEnviron env) e
        (by rw [h]; exact he')
    cases o <;> simp only [h] at he <;> exact h1 e he

/-- Every event of the synchronous node dispatch carries the merged
environment of the call. -/
theorem node_env (sys : Sys) :
    ∀ (fuel : Nat) (n : Node) (env : Env) (cwd : Option String),
    ∀ e ∈ (executeNode sys fuel n env cwd).2,
      evUses (mergedEnv sys.osEnviron env) e := by
  intro fuel
  induction fuel with
  | zero => intro n env cwd e he; simp [executeNode] at he
  | succ fuel ih =>
    intro n env cwd e he
    cases n with
    | cmd parts => exact cmdNode_env sys parts env cwd e (by simpa [executeNode] using he)
    | pipeline ns =>
      cases ns with
      | nil =>
        exact pipeStages_env sys (extractStages env []) env cwd e
          (by simpa [executeNode] using he)
      | cons m ms =>
        cases ms with
        | nil => exact ih m env cwd e (by simpa [executeNode] using he)
        | cons m2 ms2 =>
          exact pipeStages_env sys (extractStages env (m :: m2 :: ms2)) env cwd e
            (by simpa [executeNode] using he)
    | list l op r =>
      refine listNodeEval_env (evUses (mergedEnv sys.osEnviron env))
        (fun m => executeNode sys fuel m env cwd) ?_ l op r e
        (by simpa [executeNode] using he)
      intro m e' he'
      exact ih m env cwd e' he'
    | opNode o => simp [executeNode] at he
    | other k => simp [executeNode] at he

/-- Events of the asynchronous pipeline tail all carry the pipeline
environment, given that the accumulated trace already does. -/
theorem apipeRest_env (sys : Sys) (cwd : Option String) (E : Env) :
    ∀ (rest : List (List String)) (stdin accErr : String) (tr : List Ev),
    (∀ e ∈ tr, evUses E e) →
    ∀ e ∈ (apipeRest sys cwd E stdin accErr tr rest).2, evUses E e := by
  intro rest
  induction rest with
  | nil =>
    intro stdin accErr tr htr e he
    simp [apipeRest] at he
    exact htr e he
  | cons c rest ih =>
    intro stdin accErr tr htr e he
    cases rest with
    | nil =>
      cases hw : sys.which (pyHead c) with
      | none =>
        simp only [apipeRest, hw] at he
        exact htr e he
      | some p =>
        rcases h : runProc sys (p :: c.tail) stdin cwd E with ⟨o, tr2⟩
        have h2 : ∀ e ∈ tr2, evUses E e := fun e he' =>
          runProc_env sys (p :: c.tail) stdin cwd E e (by rw [h]; exact he')
        cases o <;> simp only [apipeRest, hw, h] at he <;>
          (rcases List.mem_append.mp he with h' | h'
           · exact htr e h'
           · exact h2 e h')
    | cons c2 rest2 =>
      cases hw : sys.which (pyHead c) with
      | none =>
        simp only [apipeRest, hw] at he
        exact htr e he
      | some p =>
        rcases h : runProc sys (p :: c.tail) stdin cwd E with ⟨o, tr2⟩
        have h2 : ∀ e ∈ tr2, evUses E e := fun e he' =>
          runProc_env sys (p :: c.tail) stdin cwd E e (by rw [h]; exact he')
        cases o with
        | ok rc out err =>
          simp only [apipeRest, hw, h] at he
          refine ih out (accErr ++ err) (tr ++ tr2) ?_ e he
          intro e' he'
          rcases List.mem_append.mp he' with h' | h'
          · exact htr e' h'
          · exact h2 e' h'
        | notFound m =>
          simp only [apipeRest, hw, h] at he
          rcases List.mem_append.mp he with h' | h'
          · exact htr e h'
          · exact h2 e h'
        | fail m =>
          simp only [apipeRest, hw, h] at he
          rcases List.mem_append.mp he with h' | h'
          · exact htr e h'
          · exact h2 e h'

/-- Every event of the asynchronous pipeline carries the merged
environment of the call. -/
theorem apipeStages_env (sys : Sys) (cmds : List (List String)) (env : Env)
    (cwd : Option String) :
    ∀ e ∈ (aexecutePipelineStages sys cmds env cwd).2,
      evUses (mergedEnv sys.osEnviron env) e := by
  intro e he
  cases cmds with
  | nil => simp [aexecutePipelineStages] at he
  | cons c1 rest =>
    cases rest with
    | nil =>
      cases hw : sys.which (pyHead c1) with
      | none => simp [aexecutePipelineStages, hw] at he
      | some p => simp [aexecutePipelineStages, hw] at he
    | cons c2 rest2 =>
      have htmp : ∀ n, ∀ e ∈ List.replicate n Ev.tmpfile,
          evUses (mergedEnv sys.osEnviron env) e := by
        intro n e he'
        rw [List.eq_of_mem_replicate he']
        simp [evUses]
      cases hw : sys.which (pyHead c1) with
      | none =>
        simp only [aexecutePipelineStages, hw] at he
        exact htmp _ e he
      | some p =>
        rcases h : runProc sys (p :: c1.tail) "" cwd (mergedEnv sys.osEnviron env)
          with ⟨o, tr1⟩
        have h1 : ∀ e ∈ tr1, evUses (mergedEnv sys.osEnviron env) e := fun e he' =>
          runProc_env sys (p :: c1.tail) "" cwd (mergedEnv sys.osEnviron env) e
            (by rw [h]; exact he')
        cases o with
        | ok rc out err =>
          simp only [aexecutePipelineStages, hw, h] at he
          refine apipeRest_env sys cwd (mergedEnv sys.osEnviron env) (c2 :: rest2)
            out err _ ?_ e he
          intro e' he'
          rcases List.mem_append.mp he' with h' | h'
          · exact htmp _ e' h'
          · exact h1 e' h'
        | notFound m =>
          simp only [aexecutePipelineStages, hw, h] at he
          rcases List.mem_append.mp he with h' | h'
          · exact htmp _ e h'
          · exact h1 e h'
        | fail m =>
          simp only [aexecutePipelineStages, hw, h] at he
          rcases List.mem_append.mp he with h' | h'
          · exact htmp _ e h'
          · exact h1 e h'

/-- Every event of an asynchronous command node carries the merged
environment of the call. -/
theorem acmdNode_env (sys : Sys) (parts : List WordPart) (env : Env)
    (cwd : Option String) :
    ∀ e ∈ (aexecuteCommandNode sys parts env cwd).2,
      evUses (mergedEnv sys.osEnviron env) e := by
  intro e he
  unfold aexecuteCommandNode at he
  cases hA : argvOf env parts with
  | nil => rw [hA] at he; simp at he
  | cons a rest =>
    rw [hA] at he
    cases hw : sys.which a with
    | none => simp only [hw] at he; simp at he
    | some p =>
      rcases h : runProc sys (p :: rest) "" cwd (mergedEnv sys.osEnviron env)
        with ⟨o, tr⟩
      have h1 : ∀ e ∈ tr, evUses (mergedEnv sys.osEnviron env) e := fun e he' =>
        runProc_env sys (p :: rest) "" cwd (mergedEnv sys.osEnviron env) e
          (by rw [h]; exact he')
      cases o <;> simp only [hw, h] at he <;> exact h1 e he

/-- Every event of the asynchronous node dispatch carries the merged
environment of the call. -/
theorem anode_env (sys : Sys) :
    ∀ (fuel : Nat) (n : Node) (env : Env) (cwd : Option String),
    ∀ e ∈ (aexecuteNode sys fuel n env cwd).2,
      evUses (mergedEnv sys.osEnviron env) e := by
  intro fuel
  induction fuel with
  | zero => intro n env cwd e he; simp [aexecuteNode] at he
  | succ fuel ih =>
    intro n env cwd e he
    cases n with
    | cmd parts => exact acmdNode_env sys parts env cwd e (by simpa [aexecuteNode] using he)
    | pipeline ns =>
      cases ns with
      | nil =>
        exact apipeStages_env sys (extractStages env []) env cwd e
          (by simpa [aexecuteNode] using he)
      | cons m ms =>
        cases ms with
        | nil => exact ih m env cwd e (by simpa [aexecuteNode] using he)
        | cons m2 ms2 =>
          exact apipeStages_env sys (extractStages env (m :: m2 :: ms2)) env cwd e
            (by simpa [aexecuteNode] using he)
    | list l op r =>
      refine listNodeEval_env (evUses (mergedEnv sys.osEnviron env))
        (fun m => aexecuteNode sys fuel m env cwd) ?_ l op r e
        (by simpa [aexecuteNode] using he)
      intro m e' he'
      exact ih m env cwd e' he'
    | opNode o => simp [aexecuteNode] at he
    | other k => simp [aexecuteNode] at he

/-- Any event property established for the segment executor holds for
every event of the ampersand-ampersand loop. -/
theorem andParts_env (P : Ev → Prop)
    (ex : String → (String × String × Int) × List Ev)
    (hex : ∀ p e, e ∈ (ex p).2 → P e) :
    ∀ parts : List String, ∀ e ∈ (andParts ex parts).2.2.2, P e := by
  intro parts
  induction parts with
  | nil => intro e he; simp [andParts] at he
  | cons p ps ih =>
    intro e he
    simp only [andParts] at he
    split at he
    · exact ih e he
    · rcases hx : ex (pyStrip p) with ⟨⟨so, se, rc⟩, tr⟩
      rw [hx] at he
      dsimp only at he
      split at he
      · rcases hA : andParts ex ps with ⟨outs, errs, lrc, tr2⟩
        rw [hA] at he
        dsimp only at he
        rcases List.mem_append.mp he with h' | h'
        · exact hex _ e (by rw [hx]; exact h')
        · exact ih e (by rw [hA]; exact h')
      · exact hex _ e (by rw [hx]; exact he)

/-- Any event property established for the segment executor holds for
every event of the pipe-pipe loop. -/
theorem orParts_env (P : Ev → Prop)
    (ex : String → (String × String × Int) × List Ev)
    (hex : ∀ p e, e ∈ (ex p).2 → P e) (last : String) :
    ∀ parts : List String, ∀ e ∈ (orParts ex last parts).2, P e := by
  intro parts
  induction parts with
  | nil =>
    intro e he
    simp only [orParts] at he
    exact hex _ e he
  | cons p ps ih =>
    intro e he
    simp only [orParts] at he
    split at he
    · exact ih e he
    · rcases hx : ex (pyStrip p) with ⟨r, tr⟩
      rw [hx] at he
      dsimp only at he
      split at he
      · exact hex _ e (by rw [hx]; exact he)
      · rcases hO : orParts ex last ps with ⟨r2, tr2⟩
        rw [hO] at he
        dsimp only at he
        rcases List.mem_append.mp he with h' | h'
        · exact hex _ e (by rw [hx]; exact h')
        · exact ih e (by rw [hO]; exact h')

/-- Any event property established for the segment executor holds for
every event of the semicolon loop. -/
theorem semiParts_env (P : Ev → Prop)
    (ex : String → (String × String × Int) × List Ev)
    (hex : ∀ p e, e ∈ (ex p).2 → P e) :
    ∀ parts : List String, ∀ e ∈ (semiParts ex parts).2.2.2, P e := by
  intro parts
  induction parts with
  | nil => intro e he; simp [semiParts] at he
  | cons p ps ih =>
    intro e he
    simp only [semiParts] at he
    split at he
    · exact ih e he
    · rcases hx : ex (pyStrip p) with ⟨⟨so, se, rc⟩, tr⟩
      rw [hx] at he
      dsimp only at he
      rcases hS : semiParts ex ps with ⟨outs, errs, rcO, tr2⟩
      rw [hS] at he
      dsimp only at he
      rcases List.mem_append.mp he with h' | h'
      · exact hex _ e (by rw [hx]; exact h')
      · exact ih e (by rw [hS]; exact h')

/-- Any event property established for the per-node executor holds for
every event of the top-level node loop. -/
theorem foldExec_env (P : Ev → Prop) (f : Node → NodeRes × List Ev)
    (hf : ∀ n e, e ∈ (f n).2 → P e) :
    ∀ (nodes : List Node) (acc : NodeRes × List Ev),
    (∀ e ∈ acc.2, P e) →
    ∀ e ∈ (nodes.foldl (fun acc n =>
        let (r, tr) := f n
        (⟨r.rc, acc.1.out ++ r.out, acc.1.err ++ r.err⟩, acc.2 ++ tr)) acc).2, P e := by
  intro nodes
  induction nodes with
  | nil => intro acc hacc e he; simpa using hacc e he
  | cons n ns ih =>
    intro acc hacc e he
    rw [List.foldl_cons] at he
    refine ih _ ?_ e he
    intro e' he'
    rcases hx : f n with ⟨r, tr⟩
    rw [hx] at he'
    dsimp only at he'
    rcases List.mem_append.mp he' with h' | h'
    · exact hacc e' h'
    · exact hf n e' (by rw [hx]; exact h')

/-- Every event of the synchronous top-level node loop carries the
merged environment of the call. -/
theorem runNodes_env (sys : Sys) (nodes : List Node) (env : Env)
    (cwd : Option String) :
    ∀ e ∈ (runNodes sys nodes env cwd).2, evUses (mergedEnv sys.osEnviron env) e := by
  intro e he
  unfold runNodes at he
  exact foldExec_env (evUses (mergedEnv sys.osEnviron env))
    (fun n => executeNode sys (nodeFuel n) n env cwd)
    (fun n e' he' => node_env sys (nodeFuel n) n env cwd e' he')
    nodes (⟨0, "", ""⟩, []) (by simp) e he

/-- Every event of the asynchronous top-level node loop carries the
merged environment of the call. -/
theorem aRunNodes_env (sys : Sys) (nodes : List Node) (env : Env)
    (cwd : Option String) :
    ∀ e ∈ (aRunNodes sys nodes env cwd).2, evUses (mergedEnv sys.osEnviron env) e := by
  intro e he
  unfold aRunNodes at he
  exact foldExec_env (evUses (mergedEnv sys.osEnviron env))
    (fun n => aexecuteNode sys (nodeFuel n) n env cwd)
    (fun n e' he' => anode_env sys (nodeFuel n) n env cwd e' he')
    nodes (⟨0, "", ""⟩, []) (by simp) e he

/-- Every event of the blocking driver carries the merged environment of
the call. -/
theorem executeF_env (sys : Sys) :
    ∀ (fuel : Nat) (c : String) (cwd : Option String) (env : Env),
    ∀ e ∈ (executeF sys fuel c cwd env).2, evUses (mergedEnv sys.osEnviron env) e := by
  intro fuel
  induction fuel with
  | zero => intro c cwd env e he; simp [executeF] at he
  | succ fuel ih =>
    intro c cwd env e he
    unfold executeF at he
    split at he
    · simp at he
    · split at he
      · split at he <;> rename_i heq
        all_goals (
          refine runProc_env sys ["bash", "-c", c] "" cwd (mergedEnv sys.osEnviron env) e ?_
          rw [heq]
          simpa using he)
      · split at he
        · rcases hA : andParts (fun p => executeF sys fuel p cwd env) (pySplit c "&&")
            with ⟨outs, errs, lrc, tr⟩
          rw [hA] at he
          dsimp only at he
          exact andParts_env (evUses (mergedEnv sys.osEnviron env))
            (fun p => executeF sys fuel p cwd env)
            (fun p e' he' => ih p cwd env e' he') (pySplit c "&&") e
            (by rw [hA]; exact he)
        · split at he
          · exact orParts_env (evUses (mergedEnv sys.osEnviron env))
              (fun p => executeF sys fuel p cwd env)
              (fun p e' he' => ih p cwd env e' he')
              ((pySplit c "||").getLastD "") (pySplit c "||") e he
          · split at he
            · rcases hS : semiParts (fun p => executeF sys fuel p cwd env) (pySplit c ";")
                with ⟨outs, errs, rcO, tr⟩
              rw [hS] at he
              dsimp only at he
              exact semiParts_env (evUses (mergedEnv sys.osEnviron env))
                (fun p => executeF sys fuel p cwd env)
                (fun p e' he' => ih p cwd env e' he') (pySplit c ";") e
                (by rw [hS]; exact he)
            · split at he
              · simp at he
              · rename_i nodes heq
                rcases hR : runNodes sys nodes env cwd with ⟨r, tr⟩
                rw [hR] at he
                dsimp only at he
                exact runNodes_env sys nodes env cwd e (by rw [hR]; exact he)

/-- Every event of the non-blocking driver carries the merged
environment of the call. -/
theorem aexecuteF_env (sys : Sys) :
    ∀ (fuel : Nat) (c : String) (cwd : Option String) (env : Env),
    ∀ e ∈ (aexecuteF sys fuel c cwd env).2, evUses (mergedEnv sys.osEnviron env) e := by
  intro fuel
  induction fuel with
  | zero => intro c cwd env e he; simp [aexecuteF] at he
  | succ fuel ih =>
    intro c cwd env e he
    unfold aexecuteF at he
    split at he
    · simp at he
    · split at he
      · split at he <;> rename_i heq
        all_goals (
          refine runProc_env sys ["bash", "-c", c] "" cwd (mergedEnv sys.osEnviron env) e ?_
          rw [heq]
          simpa using he)
      · split at he
        · rcases hA : andParts (fun p => aexecuteF sys fuel p cwd env) (pySplit c "&&")
            with ⟨outs, errs, lrc, tr⟩
          rw [hA] at he
          dsimp only at he
          exact andParts_env (evUses (mergedEnv sys.osEnviron env))
            (fun p => aexecuteF sys fuel p cwd env)
            (fun p e' he' => ih p cwd env e' he') (pySplit c "&&") e
            (by rw [hA]; exact he)
        · split at he
          · exact orParts_env (evUses (mergedEnv sys.osEnviron env))
              (fun p => aexecuteF sys fuel p cwd env)
              (fun p e' he' => ih p cwd env e' he')
              ((pySplit c "||").getLastD "") (pySplit c "||") e he
          · split at he
            · rcases hS : semiParts (fun p => aexecuteF sys fuel p cwd env) (pySplit c ";")
                with ⟨outs, errs, rcO, tr⟩
              rw [hS] at he
              dsimp only at he
              exact semiParts_env (evUses (mergedEnv sys.osEnviron env))
                (fun p => aexecuteF sys fuel p cwd env)
                (fun p e' he' => ih p cwd env e' he') (pySplit c ";") e
                (by rw [hS]; exact he)
            · split at he
              · simp at he
              · rename_i nodes heq
                rcases hR : aRunNodes sys nodes env cwd with ⟨r, tr⟩
                rw [hR] at he
                dsimp only at he
                exact aRunNodes_env sys nodes env cwd e (by rw [hR]; exact he)

/-- C10: the environment handed to the OS for every process launched by
execute or aexecute is the host environment overlaid with the
caller-supplied mapping — lookups answer the caller value when the key
is in the caller mapping and the host value otherwise — so the caller
mapping is never passed as the sole environment and host variables stay
visible to children. -/
theorem c10_env_overlay (sys : Sys) (fuel : Nat) (c : String)
    (cwd : Option String) (env : Env) (a : List String) (E : Env) (k : String)
    (h : Ev.launch a E ∈ (executeF sys fuel c cwd env).2
         ∨ Ev.launch a E ∈ (aexecuteF sys fuel c cwd env).2) :
    List.lookup k E = (List.lookup k env).or (List.lookup k sys.osEnviron) := by
  have hE : E = mergedEnv sys.osEnviron env := by
    rcases h with h | h
    · have := executeF_env sys fuel c cwd env (Ev.launch a E) h
      simpa [evUses] using this
    · have := aexecuteF_env sys fuel c cwd env (Ev.launch a E) h
      simpa [evUses] using this
  rw [hE, lookup_mergedEnv]

/-- C10 witness: launching echo hi through the blocking driver with an
empty caller mapping hands the child exactly the host environment, and
the lookup of PATH in it answers the host value. -/
theorem c10_env_overlay_witness :
    List.lookup "PATH" [("PATH", "/bin")]
      = (List.lookup "PATH" ([] : Env)).or (List.lookup "PATH" sysD.osEnviron) :=
  c10_env_overlay sysD 4 "echo hi" none [] ["echo", "hi"] [("PATH", "/bin")] "PATH"
    (Or.inl (by decide))
